import Mathlib

/-!
Verification of the in-process fixed-window rate limiter of the
shipment-tracking application (`lib/rate-limit.ts`) and its static
policy table (`lib/config/constants.ts`).

The TypeScript source keeps a module-global
`Map<string, { count: number; resetTime: number }>` and exposes

  checkRateLimit(identifier, config = { interval: 60000, uniqueTokenPerInterval: 10 })
    : { success: boolean; remaining: number }

plus a periodic cleanup sweep that deletes entries whose `resetTime`
has passed.  We embed the map as a function `String → Option RateWindow`,
time as `Int` (milliseconds since epoch), and make the mutation of the
global map explicit: `checkRateLimit` takes the current time and the map
and returns the result together with the updated map.
-/

/-- A stored window: `{ count: number; resetTime: number }` in the source. -/
structure RateWindow where
  count : Int
  resetTime : Int
deriving DecidableEq, Repr

/-- `interface RateLimitConfig { interval: number; uniqueTokenPerInterval: number }`. -/
structure RateLimitConfig where
  interval : Int
  uniqueTokenPerInterval : Int
deriving DecidableEq, Repr

/-- The `{ success: boolean; remaining: number }` result object. -/
structure CheckResult where
  success : Bool
  remaining : Int
deriving DecidableEq, Repr

/-- The module-global `rateLimit` map, embedded as a function. -/
def RateLimitMap : Type := String → Option RateWindow

/-- The empty map (initial state of the module-global `rateLimit`). -/
def emptyMap : RateLimitMap := fun _ => none

/-- `rateLimit.set(identifier, w)`. -/
def mapSet (m : RateLimitMap) (identifier : String) (w : RateWindow) : RateLimitMap :=
  fun k => if k = identifier then some w else m k

/-- The default value of the `config` parameter:
`{ interval: 60000, uniqueTokenPerInterval: 10 }`. -/
def defaultRateLimitConfig : RateLimitConfig :=
  { interval := 60000, uniqueTokenPerInterval := 10 }

/-- `checkRateLimit` from `lib/rate-limit.ts`, with the global map and the
clock made explicit.  Mirrors the source branch by branch:
if the entry is missing or `now > tokenData.resetTime`, store
`{ count: 1, resetTime: now + config.interval }` and admit with
`remaining = uniqueTokenPerInterval - 1`; else if
`tokenData.count >= config.uniqueTokenPerInterval`, reject with
`remaining = 0` and leave the map untouched; else increment `count`
and admit with `remaining = uniqueTokenPerInterval - count`. -/
def checkRateLimit (identifier : String) (config : RateLimitConfig)
    (now : Int) (rateLimit : RateLimitMap) : CheckResult × RateLimitMap :=
  match rateLimit identifier with
  | none =>
      ({ success := true, remaining := config.uniqueTokenPerInterval - 1 },
       mapSet rateLimit identifier { count := 1, resetTime := now + config.interval })
  | some tokenData =>
      if now > tokenData.resetTime then
        ({ success := true, remaining := config.uniqueTokenPerInterval - 1 },
         mapSet rateLimit identifier { count := 1, resetTime := now + config.interval })
      else if tokenData.count ≥ config.uniqueTokenPerInterval then
        ({ success := false, remaining := 0 }, rateLimit)
      else
        ({ success := true,
           remaining := config.uniqueTokenPerInterval - (tokenData.count + 1) },
         mapSet rateLimit identifier
           { count := tokenData.count + 1, resetTime := tokenData.resetTime })

/-- One pass of the periodic cleanup (`setInterval` body in the source):
delete every entry whose `resetTime` has passed (`now > value.resetTime`). -/
def cleanupSweep (now : Int) (m : RateLimitMap) : RateLimitMap :=
  fun k =>
    match m k with
    | none => none
    | some w => if now > w.resetTime then none else some w

/-- One call descriptor: identifier, config and the clock value at the call. -/
def Call : Type := String × RateLimitConfig × Int

/-- Run a sequence of `checkRateLimit` calls, collecting the results. -/
def runChecks : List Call → RateLimitMap → List CheckResult × RateLimitMap
  | [], m => ([], m)
  | (id, cfg, t) :: rest, m =>
      let step := checkRateLimit id cfg t m
      let tail := runChecks rest step.2
      (step.1 :: tail.1, tail.2)

/-- An operation on the global map: a `checkRateLimit` call or a cleanup pass. -/
inductive RateOp where
  | check (identifier : String) (config : RateLimitConfig) (now : Int)
  | sweep (now : Int)

/-- Run a sequence of operations on the global map. -/
def runOps : List RateOp → RateLimitMap → RateLimitMap
  | [], m => m
  | RateOp.check id cfg t :: rest, m => runOps rest (checkRateLimit id cfg t m).2
  | RateOp.sweep t :: rest, m => runOps rest (cleanupSweep t m)

/-- The `DEFAULT` tier of `RATE_LIMITS` in `lib/config/constants.ts`:
`{ interval: 60000, requests: 30 }`. -/
structure RateLimitTier where
  interval : Int
  requests : Int
deriving DecidableEq, Repr

namespace RATE_LIMITS

/-- `RATE_LIMITS.DEFAULT` from `lib/config/constants.ts`. -/
def DEFAULT : RateLimitTier := { interval := 60000, requests := 30 }

/-- `RATE_LIMITS.AUTH` from `lib/config/constants.ts`. -/
def AUTH : RateLimitTier := { interval := 60000, requests := 5 }

/-- `RATE_LIMITS.SYNC` from `lib/config/constants.ts`. -/
def SYNC : RateLimitTier := { interval := 300000, requests := 3 }

end RATE_LIMITS

/-! ### Basic lemmas about the embedding -/

theorem mapSet_self (m : RateLimitMap) (id : String) (w : RateWindow) :
    mapSet m id w id = some w := by
  simp [mapSet]

theorem mapSet_other (m : RateLimitMap) (id k : String) (w : RateWindow)
    (h : k ≠ id) : mapSet m id w k = m k := by
  simp [mapSet, h]

theorem checkRateLimit_none (id : String) (cfg : RateLimitConfig) (now : Int)
    (m : RateLimitMap) (h : m id = none) :
    checkRateLimit id cfg now m =
      ({ success := true, remaining := cfg.uniqueTokenPerInterval - 1 },
       mapSet m id { count := 1, resetTime := now + cfg.interval }) := by
  simp [checkRateLimit, h]

theorem checkRateLimit_expired (id : String) (cfg : RateLimitConfig) (now : Int)
    (m : RateLimitMap) (w : RateWindow) (h : m id = some w)
    (hexp : w.resetTime < now) :
    checkRateLimit id cfg now m =
      ({ success := true, remaining := cfg.uniqueTokenPerInterval - 1 },
       mapSet m id { count := 1, resetTime := now + cfg.interval }) := by
  simp [checkRateLimit, h, hexp]

theorem checkRateLimit_reject (id : String) (cfg : RateLimitConfig) (now : Int)
    (m : RateLimitMap) (w : RateWindow) (h : m id = some w)
    (hlive : now ≤ w.resetTime) (hfull : cfg.uniqueTokenPerInterval ≤ w.count) :
    checkRateLimit id cfg now m = ({ success := false, remaining := 0 }, m) := by
  simp [checkRateLimit, h, not_lt.mpr hlive, hfull]

theorem checkRateLimit_increment (id : String) (cfg : RateLimitConfig) (now : Int)
    (m : RateLimitMap) (w : RateWindow) (h : m id = some w)
    (hlive : now ≤ w.resetTime) (hroom : w.count < cfg.uniqueTokenPerInterval) :
    checkRateLimit id cfg now m =
      ({ success := true,
         remaining := cfg.uniqueTokenPerInterval - (w.count + 1) },
       mapSet m id { count := w.count + 1, resetTime := w.resetTime }) := by
  simp [checkRateLimit, h, not_lt.mpr hlive, not_le.mpr hroom]

/-- After an admitted call, the identifier is stored and the returned
`remaining` equals `uniqueTokenPerInterval - count` for the stored window. -/
theorem admitted_remaining (id : String) (cfg : RateLimitConfig) (now : Int)
    (m : RateLimitMap) (r : CheckResult) (m' : RateLimitMap)
    (h : checkRateLimit id cfg now m = (r, m')) (hs : r.success = true) :
    ∃ w1, m' id = some w1 ∧
      r.remaining = cfg.uniqueTokenPerInterval - w1.count := by
  rcases hm : m id with _ | w
  · rw [checkRateLimit_none id cfg now m hm] at h
    obtain ⟨hr, hm'⟩ := Prod.mk.injEq .. ▸ h
    refine ⟨{ count := 1, resetTime := now + cfg.interval }, ?_, ?_⟩
    · rw [← hm']; exact mapSet_self ..
    · rw [← hr]
  · by_cases hexp : w.resetTime < now
    · rw [checkRateLimit_expired id cfg now m w hm hexp] at h
      obtain ⟨hr, hm'⟩ := Prod.mk.injEq .. ▸ h
      refine ⟨{ count := 1, resetTime := now + cfg.interval }, ?_, ?_⟩
      · rw [← hm']; exact mapSet_self ..
      · rw [← hr]
    · by_cases hfull : cfg.uniqueTokenPerInterval ≤ w.count
      · rw [checkRateLimit_reject id cfg now m w hm (not_lt.mp hexp) hfull] at h
        obtain ⟨hr, _⟩ := Prod.mk.injEq .. ▸ h
        rw [← hr] at hs; simp at hs
      · rw [checkRateLimit_increment id cfg now m w hm (not_lt.mp hexp)
          (not_le.mp hfull)] at h
        obtain ⟨hr, hm'⟩ := Prod.mk.injEq .. ▸ h
        refine ⟨{ count := w.count + 1, resetTime := w.resetTime }, ?_, ?_⟩
        · rw [← hm']; exact mapSet_self ..
        · rw [← hr]

/-! ### Claim theorems: single-call properties -/

/-- Claim C2: with a live window whose count has reached the quota, a
`checkRateLimit` call returns `success = false` with `remaining = 0` and
leaves the whole map unchanged; moreover, after the window's `resetTime`
has passed, the next call stores a fresh window with `count = 1` and is
admitted with `remaining = quota - 1`. -/
theorem no_increment_on_reject_C2 (id : String) (cfg : RateLimitConfig)
    (now : Int) (m : RateLimitMap) (w : RateWindow)
    (h : m id = some w) (hlive : now ≤ w.resetTime)
    (hfull : cfg.uniqueTokenPerInterval ≤ w.count) :
    checkRateLimit id cfg now m = ({ success := false, remaining := 0 }, m)
    ∧ ∀ now', w.resetTime < now' →
        (checkRateLimit id cfg now' m).2 id =
          some { count := 1, resetTime := now' + cfg.interval }
        ∧ (checkRateLimit id cfg now' m).1 =
          { success := true, remaining := cfg.uniqueTokenPerInterval - 1 } := by
  refine ⟨checkRateLimit_reject id cfg now m w h hlive hfull, ?_⟩
  intro now' hnow'
  rw [checkRateLimit_expired id cfg now' m w h hnow']
  exact ⟨mapSet_self .., rfl⟩

/-- Claim C2 witness: identifier `"auth-user2"`, quota 1, exhausted window. -/
theorem no_increment_on_reject_C2_witness :
    checkRateLimit "auth-user2" { interval := 1000, uniqueTokenPerInterval := 1 }
        500 (mapSet emptyMap "auth-user2" { count := 1, resetTime := 1000 })
      = ({ success := false, remaining := 0 },
         mapSet emptyMap "auth-user2" { count := 1, resetTime := 1000 })
    ∧ (checkRateLimit "auth-user2" { interval := 1000, uniqueTokenPerInterval := 1 }
        1001 (mapSet emptyMap "auth-user2" { count := 1, resetTime := 1000 })).2
        "auth-user2" = some { count := 1, resetTime := 2001 } := by
  have h := no_increment_on_reject_C2 "auth-user2"
    { interval := 1000, uniqueTokenPerInterval := 1 } 500
    (mapSet emptyMap "auth-user2" { count := 1, resetTime := 1000 })
    { count := 1, resetTime := 1000 } (mapSet_self ..) (by decide) (by decide)
  exact ⟨h.1, (h.2 1001 (by decide)).1⟩

/-- Claim C3 counterexample: at `now = resetTime` (the claim's "including
equality" case) the code does NOT reset the window: with a stored window
`{count := 1, resetTime := 100}` and quota 3, a call at `now = 100`
increments the count to 2 and returns `remaining = 1`, whereas the claim
demands a fresh window with `count = 1` and `remaining = quota - 1 = 2`. -/
theorem window_reset_C3_counterexample :
    (100 : Int) ≥ 100
    ∧ (checkRateLimit "a" { interval := 60000, uniqueTokenPerInterval := 3 }
        100 (mapSet emptyMap "a" { count := 1, resetTime := 100 })).1
      = { success := true, remaining := 1 }
    ∧ (checkRateLimit "a" { interval := 60000, uniqueTokenPerInterval := 3 }
        100 (mapSet emptyMap "a" { count := 1, resetTime := 100 })).2 "a"
      = some { count := 2, resetTime := 100 }
    ∧ ¬ (checkRateLimit "a" { interval := 60000, uniqueTokenPerInterval := 3 }
        100 (mapSet emptyMap "a" { count := 1, resetTime := 100 })).1.remaining
      = 2 := by
  refine ⟨by decide, ?_, ?_, ?_⟩ <;> decide

/-- Claim C3 (amended): when no window exists for the identifier, or the
existing window's `resetTime` is strictly before the current time
(`now > resetTime`; at `now = resetTime` the window is still live), the
call stores a window with `count = 1` and `resetTime = now + interval`,
and returns admitted with `remaining = quota - 1`. -/
theorem window_reset_C3 (id : String) (cfg : RateLimitConfig) (now : Int)
    (m : RateLimitMap)
    (hfresh : m id = none ∨ ∃ w, m id = some w ∧ w.resetTime < now) :
    (checkRateLimit id cfg now m).1 =
      { success := true, remaining := cfg.uniqueTokenPerInterval - 1 }
    ∧ (checkRateLimit id cfg now m).2 id =
      some { count := 1, resetTime := now + cfg.interval } := by
  rcases hfresh with h | ⟨w, h, hexp⟩
  · rw [checkRateLimit_none id cfg now m h]
    exact ⟨rfl, mapSet_self ..⟩
  · rw [checkRateLimit_expired id cfg now m w h hexp]
    exact ⟨rfl, mapSet_self ..⟩

/-- Claim C3 witness: a call at `t0 + interval + 1` on a window created at
`t0 = 0` with interval 1000 is a fresh window. -/
theorem window_reset_C3_witness :
    (checkRateLimit "auth-user2" { interval := 1000, uniqueTokenPerInterval := 1 }
        1001 (mapSet emptyMap "auth-user2" { count := 1, resetTime := 1000 })).1
      = { success := true, remaining := 0 }
    ∧ (checkRateLimit "auth-user2" { interval := 1000, uniqueTokenPerInterval := 1 }
        1001 (mapSet emptyMap "auth-user2" { count := 1, resetTime := 1000 })).2
        "auth-user2" = some { count := 1, resetTime := 2001 } :=
  window_reset_C3 "auth-user2" { interval := 1000, uniqueTokenPerInterval := 1 }
    1001 (mapSet emptyMap "auth-user2" { count := 1, resetTime := 1000 })
    (Or.inr ⟨{ count := 1, resetTime := 1000 }, mapSet_self .., by decide⟩)

/-- Claim C4 (code bug evidence): with quota 0, the very first call on an
absent identifier is ADMITTED with `remaining = -1`: the create/reset
branch never consults the quota, so `quota <= 0` does not always reject,
contradicting the spec's "zero quota means always-reject". -/
theorem zero_quota_first_call_admitted_C4 :
    (checkRateLimit "a" { interval := 60000, uniqueTokenPerInterval := 0 }
        0 emptyMap).1 = { success := true, remaining := -1 }
    ∧ (checkRateLimit "a" { interval := 60000, uniqueTokenPerInterval := 0 }
        0 emptyMap).1.success = true := by
  exact ⟨by decide, by decide⟩

/-- Claim C10: a call on a live (non-expired) window never changes that
window's `resetTime`: the stored window after the call has the same
`resetTime`; a rejected call leaves the whole map unchanged; an admitted
in-window call changes only this identifier's count. -/
theorem live_window_frame_C10 (id : String) (cfg : RateLimitConfig) (now : Int)
    (m : RateLimitMap) (w : RateWindow)
    (h : m id = some w) (hlive : now ≤ w.resetTime) :
    (∃ w', (checkRateLimit id cfg now m).2 id = some w'
      ∧ w'.resetTime = w.resetTime)
    ∧ (cfg.uniqueTokenPerInterval ≤ w.count → (checkRateLimit id cfg now m).2 = m)
    ∧ (w.count < cfg.uniqueTokenPerInterval →
        (checkRateLimit id cfg now m).2 id =
          some { count := w.count + 1, resetTime := w.resetTime }
        ∧ ∀ k, k ≠ id → (checkRateLimit id cfg now m).2 k = m k) := by
  by_cases hfull : cfg.uniqueTokenPerInterval ≤ w.count
  · rw [checkRateLimit_reject id cfg now m w h hlive hfull]
    exact ⟨⟨w, h, rfl⟩, fun _ => rfl, fun hr => absurd hfull (not_le.mpr hr)⟩
  · rw [checkRateLimit_increment id cfg now m w h hlive (not_le.mp hfull)]
    refine ⟨⟨{ count := w.count + 1, resetTime := w.resetTime }, mapSet_self .., rfl⟩,
      fun hc => absurd hc hfull, fun _ => ⟨mapSet_self .., fun k hk => mapSet_other _ _ _ _ hk⟩⟩

/-- Claim C10 witness: live window with count 1, quota 3, at `now = 50`. -/
theorem live_window_frame_C10_witness :
    (checkRateLimit "a" { interval := 60000, uniqueTokenPerInterval := 3 }
        50 (mapSet emptyMap "a" { count := 1, resetTime := 100 })).2 "a"
      = some { count := 2, resetTime := 100 } :=
  ((live_window_frame_C10 "a" { interval := 60000, uniqueTokenPerInterval := 3 }
      50 (mapSet emptyMap "a" { count := 1, resetTime := 100 })
      { count := 1, resetTime := 100 } (mapSet_self ..) (by decide)).2.2
    (by decide)).1

/-- Claim C8: calling `checkRateLimit` with its default `config` argument
cannot fail (it is a total function returning a result object); the default
interval of 60000 ms agrees with the `RATE_LIMITS.DEFAULT` tier of the
constants table; a first call for a fresh identifier under the default
config is admitted with `remaining = 10 - 1`, and any rejected call reports
`remaining = 0` — a result consistent with the default policy. -/
theorem default_policy_fallback_C8 :
    defaultRateLimitConfig.interval = RATE_LIMITS.DEFAULT.interval
    ∧ ∀ (id : String) (now : Int) (m : RateLimitMap),
        (m id = none →
          (checkRateLimit id defaultRateLimitConfig now m).1 =
            { success := true,
              remaining := defaultRateLimitConfig.uniqueTokenPerInterval - 1 })
        ∧ ((checkRateLimit id defaultRateLimitConfig now m).1.success = false →
          (checkRateLimit id defaultRateLimitConfig now m).1.remaining = 0) := by
  refine ⟨rfl, fun id now m => ⟨fun h => ?_, fun h => ?_⟩⟩
  · rw [checkRateLimit_none id defaultRateLimitConfig now m h]
  · rcases hm : m id with _ | w
    · rw [checkRateLimit_none id defaultRateLimitConfig now m hm] at h ⊢
      simp at h
    · by_cases hexp : w.resetTime < now
      · rw [checkRateLimit_expired id defaultRateLimitConfig now m w hm hexp] at h ⊢
        simp at h
      · by_cases hfull : defaultRateLimitConfig.uniqueTokenPerInterval ≤ w.count
        · rw [checkRateLimit_reject id defaultRateLimitConfig now m w hm
            (not_lt.mp hexp) hfull]
        · rw [checkRateLimit_increment id defaultRateLimitConfig now m w hm
            (not_lt.mp hexp) (not_le.mp hfull)] at h ⊢
          simp at h

/-- Claim C8 witness: a fresh identifier under the default config. -/
theorem default_policy_fallback_C8_witness :
    (checkRateLimit "unregistered-op" defaultRateLimitConfig 0 emptyMap).1 =
      { success := true,
        remaining := defaultRateLimitConfig.uniqueTokenPerInterval - 1 } :=
  ((default_policy_fallback_C8.2 "unregistered-op" 0 emptyMap).1) rfl

/-- A call that finds a live window and is admitted must have had room, and
returns `remaining = uniqueTokenPerInterval - (count + 1)`. -/
theorem live_admitted (id : String) (cfg : RateLimitConfig) (now : Int)
    (m : RateLimitMap) (w : RateWindow) (r : CheckResult) (m' : RateLimitMap)
    (h : m id = some w) (hlive : now ≤ w.resetTime)
    (hc : checkRateLimit id cfg now m = (r, m')) (hs : r.success = true) :
    w.count < cfg.uniqueTokenPerInterval
    ∧ r.remaining = cfg.uniqueTokenPerInterval - (w.count + 1) := by
  by_cases hfull : cfg.uniqueTokenPerInterval ≤ w.count
  · rw [checkRateLimit_reject id cfg now m w h hlive hfull] at hc
    obtain ⟨hr, _⟩ := Prod.mk.injEq .. ▸ hc
    rw [← hr] at hs; simp at hs
  · rw [checkRateLimit_increment id cfg now m w h hlive (not_le.mp hfull)] at hc
    obtain ⟨hr, _⟩ := Prod.mk.injEq .. ▸ hc
    exact ⟨not_le.mp hfull, by rw [← hr]⟩

/-- Claim C7: across two successive admitted calls for the same identifier
and config, where the second call finds the window still live (not reset),
`remaining` decreases by exactly 1, and in particular is non-increasing. -/
theorem remaining_monotonic_C7 (id : String) (cfg : RateLimitConfig)
    (now now' : Int) (m m' m'' : RateLimitMap) (r r' : CheckResult)
    (w' : RateWindow)
    (h1 : checkRateLimit id cfg now m = (r, m')) (h2 : r.success = true)
    (h3 : m' id = some w') (h4 : now' ≤ w'.resetTime)
    (h5 : checkRateLimit id cfg now' m' = (r', m'')) (h6 : r'.success = true) :
    r'.remaining = r.remaining - 1 ∧ r'.remaining ≤ r.remaining := by
  obtain ⟨w1, hw1, hrem⟩ := admitted_remaining id cfg now m r m' h1 h2
  have hw : w' = w1 := by rw [hw1] at h3; exact (Option.some.injEq .. ▸ h3).symm
  obtain ⟨_, hrem'⟩ := live_admitted id cfg now' m' w' r' m'' h3 h4 h5 h6
  subst hw
  constructor
  · rw [hrem', hrem]; ring
  · rw [hrem', hrem]; omega

/-- Claim C7 witness: two admitted calls in one window under quota 3. -/
theorem remaining_monotonic_C7_witness :
    ((checkRateLimit "write-user1" { interval := 60000, uniqueTokenPerInterval := 3 }
        1 (mapSet emptyMap "write-user1" { count := 1, resetTime := 60000 })).1).remaining
      = ((checkRateLimit "write-user1"
          { interval := 60000, uniqueTokenPerInterval := 3 } 0 emptyMap).1).remaining - 1 := by
  have h := remaining_monotonic_C7 "write-user1"
    { interval := 60000, uniqueTokenPerInterval := 3 } 0 1 emptyMap
    (mapSet emptyMap "write-user1" { count := 1, resetTime := 60000 })
    ((checkRateLimit "write-user1" { interval := 60000, uniqueTokenPerInterval := 3 }
      1 (mapSet emptyMap "write-user1" { count := 1, resetTime := 60000 })).2)
    { success := true, remaining := 2 }
    ((checkRateLimit "write-user1" { interval := 60000, uniqueTokenPerInterval := 3 }
      1 (mapSet emptyMap "write-user1" { count := 1, resetTime := 60000 })).1)
    { count := 1, resetTime := 60000 }
    rfl rfl (mapSet_self ..) (by decide) rfl (by decide)
  have he : ((checkRateLimit "write-user1"
      { interval := 60000, uniqueTokenPerInterval := 3 } 0 emptyMap).1).remaining
      = (2 : Int) := by decide
  rw [he]
  exact h.1

/-- A `checkRateLimit` call never touches the entry of a different key. -/
theorem check_preserves_other (id k : String) (cfg : RateLimitConfig)
    (now : Int) (m : RateLimitMap) (hk : k ≠ id) :
    (checkRateLimit id cfg now m).2 k = m k := by
  rcases hm : m id with _ | w
  · rw [checkRateLimit_none id cfg now m hm]; exact mapSet_other _ _ _ _ hk
  · by_cases hexp : w.resetTime < now
    · rw [checkRateLimit_expired id cfg now m w hm hexp]
      exact mapSet_other _ _ _ _ hk
    · by_cases hfull : cfg.uniqueTokenPerInterval ≤ w.count
      · rw [checkRateLimit_reject id cfg now m w hm (not_lt.mp hexp) hfull]
      · rw [checkRateLimit_increment id cfg now m w hm (not_lt.mp hexp)
          (not_le.mp hfull)]
        exact mapSet_other _ _ _ _ hk

/-- The result of a `checkRateLimit` call depends on the map only through
the entry of the checked identifier. -/
theorem check_result_congr (id : String) (cfg : RateLimitConfig) (now : Int)
    (m1 m2 : RateLimitMap) (h : m1 id = m2 id) :
    (checkRateLimit id cfg now m1).1 = (checkRateLimit id cfg now m2).1 := by
  rcases hm : m2 id with _ | w
  · rw [checkRateLimit_none id cfg now m1 (h.trans hm),
      checkRateLimit_none id cfg now m2 hm]
  · by_cases hexp : w.resetTime < now
    · rw [checkRateLimit_expired id cfg now m1 w (h.trans hm) hexp,
        checkRateLimit_expired id cfg now m2 w hm hexp]
    · by_cases hfull : cfg.uniqueTokenPerInterval ≤ w.count
      · rw [checkRateLimit_reject id cfg now m1 w (h.trans hm) (not_lt.mp hexp) hfull,
          checkRateLimit_reject id cfg now m2 w hm (not_lt.mp hexp) hfull]
      · rw [checkRateLimit_increment id cfg now m1 w (h.trans hm) (not_lt.mp hexp)
            (not_le.mp hfull),
          checkRateLimit_increment id cfg now m2 w hm (not_lt.mp hexp)
            (not_le.mp hfull)]

/-- A whole sequence of calls for identifier `A` never touches the entry of
a different key `B`. -/
theorem runChecks_preserves_other (A B : String) (hAB : B ≠ A)
    (ps : List (RateLimitConfig × Int)) :
    ∀ m : RateLimitMap,
      (runChecks (ps.map fun p => (A, p.1, p.2)) m).2 B = m B := by
  induction ps with
  | nil => intro m; rfl
  | cons p rest ih =>
      intro m
      show (runChecks (rest.map fun p => (A, p.1, p.2))
        (checkRateLimit A p.1 p.2 m).2).2 B = m B
      rw [ih, check_preserves_other A B p.1 p.2 m hAB]

/-- Claim C6: for distinct identifiers `A ≠ B`, any sequence of
`checkRateLimit` calls for `A` (under arbitrary configs and times) leaves
`B`'s stored entry unchanged, and the result of a subsequent call for `B`
is the same as if the `A`-calls had never happened. -/
theorem identifier_independence_C6 (A B : String) (hAB : A ≠ B)
    (ps : List (RateLimitConfig × Int)) (m : RateLimitMap)
    (cfgB : RateLimitConfig) (nowB : Int) :
    (runChecks (ps.map fun p => (A, p.1, p.2)) m).2 B = m B
    ∧ (checkRateLimit B cfgB nowB
        (runChecks (ps.map fun p => (A, p.1, p.2)) m).2).1
      = (checkRateLimit B cfgB nowB m).1 := by
  have hB := runChecks_preserves_other A B (Ne.symm hAB) ps m
  exact ⟨hB, check_result_congr B cfgB nowB _ m hB⟩

/-- Claim C6 witness: exhausting `"sync-userA"` (quota 1) has no effect on
`"sync-userB"`, whose first call is admitted with `remaining = 0`. -/
theorem identifier_independence_C6_witness :
    (runChecks ([({ interval := 300000, uniqueTokenPerInterval := 1 }, (0 : Int)),
        ({ interval := 300000, uniqueTokenPerInterval := 1 }, 1)].map
        fun p => ("sync-userA", p.1, p.2)) emptyMap).2 "sync-userB" = none
    ∧ (checkRateLimit "sync-userB" { interval := 300000, uniqueTokenPerInterval := 1 }
        2 (runChecks ([({ interval := 300000, uniqueTokenPerInterval := 1 }, (0 : Int)),
          ({ interval := 300000, uniqueTokenPerInterval := 1 }, 1)].map
          fun p => ("sync-userA", p.1, p.2)) emptyMap).2).1
      = { success := true, remaining := 0 } := by
  have h := identifier_independence_C6 "sync-userA" "sync-userB" (by decide)
    [({ interval := 300000, uniqueTokenPerInterval := 1 }, (0 : Int)),
     ({ interval := 300000, uniqueTokenPerInterval := 1 }, 1)] emptyMap
    { interval := 300000, uniqueTokenPerInterval := 1 } 2
  refine ⟨h.1.trans rfl, h.2.trans ?_⟩
  decide

/-- Every stored window has `count ≥ 1`. -/
def CountPos (m : RateLimitMap) : Prop :=
  ∀ k w, m k = some w → 1 ≤ w.count

theorem countPos_empty : CountPos emptyMap := by
  intro k w h
  exact absurd h (by simp [emptyMap])

theorem countPos_mapSet (m : RateLimitMap) (id : String) (w : RateWindow)
    (h : CountPos m) (hw : 1 ≤ w.count) : CountPos (mapSet m id w) := by
  intro k w' hk
  by_cases hkid : k = id
  · subst hkid; rw [mapSet_self] at hk
    cases hk; exact hw
  · rw [mapSet_other _ _ _ _ hkid] at hk
    exact h k w' hk

theorem countPos_check (id : String) (cfg : RateLimitConfig) (now : Int)
    (m : RateLimitMap) (h : CountPos m) :
    CountPos (checkRateLimit id cfg now m).2 := by
  rcases hm : m id with _ | w
  · rw [checkRateLimit_none id cfg now m hm]
    exact countPos_mapSet m id _ h (le_refl 1)
  · by_cases hexp : w.resetTime < now
    · rw [checkRateLimit_expired id cfg now m w hm hexp]
      exact countPos_mapSet m id _ h (le_refl 1)
    · by_cases hfull : cfg.uniqueTokenPerInterval ≤ w.count
      · rw [checkRateLimit_reject id cfg now m w hm (not_lt.mp hexp) hfull]
        exact h
      · rw [checkRateLimit_increment id cfg now m w hm (not_lt.mp hexp)
          (not_le.mp hfull)]
        have hw1 := h id w hm
        refine countPos_mapSet m id _ h ?_
        show (1 : Int) ≤ w.count + 1
        omega

theorem countPos_sweep (t : Int) (m : RateLimitMap) (h : CountPos m) :
    CountPos (cleanupSweep t m) := by
  intro k w hk
  unfold cleanupSweep at hk
  rcases hm : m k with _ | w0 <;> rw [hm] at hk
  · simp at hk
  · by_cases ht : t > w0.resetTime
    · simp only [if_pos ht] at hk
      simp at hk
    · simp only [if_neg ht] at hk
      have hw : w0 = w := by simpa using hk
      exact hw ▸ h k w0 hm

theorem countPos_runOps (ops : List RateOp) :
    ∀ m : RateLimitMap, CountPos m → CountPos (runOps ops m) := by
  induction ops with
  | nil => intro m h; exact h
  | cons op rest ih =>
      intro m h
      cases op with
      | check id cfg t => exact ih _ (countPos_check id cfg t m h)
      | sweep t => exact ih _ (countPos_sweep t m h)

/-- Claim C9: starting from the empty map, after any sequence of
`checkRateLimit` calls and cleanup sweeps, every stored window has
`count ≥ 1` — strictly stronger than the spec's stated `count ≥ 0`. -/
theorem stored_count_positive_C9 (ops : List RateOp) (k : String)
    (w : RateWindow) (h : runOps ops emptyMap k = some w) : 1 ≤ w.count :=
  countPos_runOps ops emptyMap countPos_empty k w h

/-- Claim C9 witness: one check stores `count = 1`. -/
theorem stored_count_positive_C9_witness :
    runOps [RateOp.check "a" { interval := 60000, uniqueTokenPerInterval := 5 } 0]
        emptyMap "a" = some { count := 1, resetTime := 60000 }
    ∧ 1 ≤ (RateWindow.mk 1 60000).count :=
  ⟨by decide,
   stored_count_positive_C9
     [RateOp.check "a" { interval := 60000, uniqueTokenPerInterval := 5 } 0]
     "a" { count := 1, resetTime := 60000 } (by decide)⟩

theorem runChecks_append (l1 l2 : List Call) :
    ∀ m : RateLimitMap,
      runChecks (l1 ++ l2) m
        = ((runChecks l1 m).1 ++ (runChecks l2 (runChecks l1 m).2).1,
           (runChecks l2 (runChecks l1 m).2).2) := by
  induction l1 with
  | nil => intro m; rfl
  | cons c rest ih =>
      intro m
      obtain ⟨id, cfg, t⟩ := c
      show ((checkRateLimit id cfg t m).1
              :: (runChecks (rest ++ l2) (checkRateLimit id cfg t m).2).1,
            (runChecks (rest ++ l2) (checkRateLimit id cfg t m).2).2)
        = (((checkRateLimit id cfg t m).1
              :: (runChecks rest (checkRateLimit id cfg t m).2).1)
             ++ (runChecks l2 (runChecks rest (checkRateLimit id cfg t m).2).2).1,
           (runChecks l2 (runChecks rest (checkRateLimit id cfg t m).2).2).2)
      rw [ih]
      rfl

/-- Running calls against a live window with room: every call is admitted,
`remaining` counts down, and the final stored count is the old count plus
the number of calls. -/
theorem runChecks_live (id : String) (cfg : RateLimitConfig) (rt : Int) :
    ∀ (ts : List Int) (m : RateLimitMap) (c : Int),
      m id = some { count := c, resetTime := rt } →
      (∀ t ∈ ts, t ≤ rt) →
      c + ts.length ≤ cfg.uniqueTokenPerInterval →
      (runChecks (ts.map fun t => (id, cfg, t)) m).1
        = (List.range ts.length).map
            (fun i => { success := true,
                        remaining := cfg.uniqueTokenPerInterval - (c + i + 1) })
      ∧ (runChecks (ts.map fun t => (id, cfg, t)) m).2 id
        = some { count := c + ts.length, resetTime := rt } := by
  intro ts
  induction ts with
  | nil =>
      intro m c hm _ _
      refine ⟨rfl, ?_⟩
      simpa using hm
  | cons t rest ih =>
      intro m c hm hts hcount
      have hlen : ((rest.length + 1 : Nat) : Int) = (rest.length : Int) + 1 := by
        push_cast; ring
      have hroom : c < cfg.uniqueTokenPerInterval := by
        have h0 : (0 : Int) ≤ (rest.length : Int) := Int.ofNat_nonneg _
        rw [List.length_cons, hlen] at hcount
        omega
      have hlive : t ≤ rt := hts t (List.mem_cons_self ..)
      have hstep := checkRateLimit_increment id cfg t m _ hm hlive hroom
      have hm1 : mapSet m id { count := c + 1, resetTime := rt } id
          = some { count := c + 1, resetTime := rt } := mapSet_self ..
      have hts1 : ∀ t' ∈ rest, t' ≤ rt := fun t' ht' => hts t' (List.mem_cons_of_mem _ ht')
      have hcount1 : (c + 1) + (rest.length : Int) ≤ cfg.uniqueTokenPerInterval := by
        rw [List.length_cons, hlen] at hcount
        omega
      obtain ⟨ihres, ihstate⟩ := ih (mapSet m id { count := c + 1, resetTime := rt })
        (c + 1) hm1 hts1 hcount1
      simp only [List.map_cons, runChecks, hstep]
      constructor
      · rw [ihres, List.length_cons, List.range_succ_eq_map, List.map_cons,
          List.map_map]
        congr 1
        · simp
        · refine List.map_congr_left fun i _ => ?_
          simp only [Function.comp]
          congr 1
          push_cast
          ring
      · rw [ihstate, List.length_cons, hlen]
        congr 2
        ring

/-- Claim C1: with quota ≥ 1, starting from a fresh (absent or expired)
identifier, a call at `t1` followed by `quota - 1` further calls at times
within the window (at most `t1 + interval`) are all admitted with
`remaining` counting down from `quota - 1` to `0`, and one further call in
the same window is rejected with `remaining = 0`. -/
theorem quota_ceiling_C1 (id : String) (cfg : RateLimitConfig) (m : RateLimitMap)
    (t1 : Int) (ts : List Int) (tf : Int)
    (hq : 1 ≤ cfg.uniqueTokenPerInterval)
    (hlen : (ts.length : Int) = cfg.uniqueTokenPerInterval - 1)
    (hfresh : m id = none ∨ ∃ w, m id = some w ∧ w.resetTime < t1)
    (hts : ∀ t ∈ ts, t ≤ t1 + cfg.interval)
    (htf : tf ≤ t1 + cfg.interval) :
    (runChecks ((t1 :: ts ++ [tf]).map fun t => (id, cfg, t)) m).1
      = (List.range (ts.length + 1)).map
          (fun i => { success := true,
                      remaining := cfg.uniqueTokenPerInterval - (i + 1) })
        ++ [{ success := false, remaining := 0 }] := by
  have hstep1 : checkRateLimit id cfg t1 m =
      ({ success := true, remaining := cfg.uniqueTokenPerInterval - 1 },
       mapSet m id { count := 1, resetTime := t1 + cfg.interval }) := by
    rcases hfresh with h | ⟨w, h, hexp⟩
    · exact checkRateLimit_none id cfg t1 m h
    · exact checkRateLimit_expired id cfg t1 m w h hexp
  have hm1 : mapSet m id { count := 1, resetTime := t1 + cfg.interval } id
      = some { count := 1, resetTime := t1 + cfg.interval } := mapSet_self ..
  have hcount1 : (1 : Int) + (ts.length : Int) ≤ cfg.uniqueTokenPerInterval := by
    omega
  obtain ⟨hres, hstate⟩ := runChecks_live id cfg (t1 + cfg.interval) ts
    (mapSet m id { count := 1, resetTime := t1 + cfg.interval }) 1 hm1 hts hcount1
  have hfull : cfg.uniqueTokenPerInterval ≤
      (RateWindow.mk (1 + (ts.length : Int)) (t1 + cfg.interval)).count := by
    show cfg.uniqueTokenPerInterval ≤ 1 + (ts.length : Int)
    omega
  have hfinal := checkRateLimit_reject id cfg tf _ _ hstate htf hfull
  have hsplit : (t1 :: ts ++ [tf]).map (fun t => (id, cfg, t))
      = (id, cfg, t1) :: ((ts.map fun t => (id, cfg, t)) ++ [(id, cfg, tf)]) := by
    simp
  rw [hsplit]
  show (checkRateLimit id cfg t1 m).1
      :: (runChecks ((ts.map fun t => (id, cfg, t)) ++ [(id, cfg, tf)])
          (checkRateLimit id cfg t1 m).2).1 = _
  rw [hstep1, runChecks_append]
  show CheckResult.mk true (cfg.uniqueTokenPerInterval - 1)
      :: ((runChecks (ts.map fun t => (id, cfg, t))
            (mapSet m id (RateWindow.mk 1 (t1 + cfg.interval)))).1
          ++ ((checkRateLimit id cfg tf
              (runChecks (ts.map fun t => (id, cfg, t))
                (mapSet m id (RateWindow.mk 1 (t1 + cfg.interval)))).2).1
            :: (runChecks []
                (checkRateLimit id cfg tf
                  (runChecks (ts.map fun t => (id, cfg, t))
                    (mapSet m id (RateWindow.mk 1 (t1 + cfg.interval)))).2).2).1)) = _
  rw [hres, hfinal]
  show CheckResult.mk true (cfg.uniqueTokenPerInterval - 1)
      :: ((List.range ts.length).map
            (fun i : Nat =>
              CheckResult.mk true (cfg.uniqueTokenPerInterval - (1 + (i : Int) + 1)))
          ++ [CheckResult.mk false 0]) = _
  rw [List.range_succ_eq_map, List.map_cons, List.map_map, List.cons_append]
  congr 1
  congr 1
  refine List.map_congr_left fun i _ => ?_
  simp only [Function.comp]
  congr 1
  push_cast
  ring

/-- Claim C1 witness: Scenario A — quota 3, identifier `"write-user1"`,
calls at 0, 1, 2 admitted with remaining 2, 1, 0; call at 3 rejected. -/
theorem quota_ceiling_C1_witness :
    (runChecks (((0 : Int) :: [1, 2] ++ [3]).map
        fun t => ("write-user1", RateLimitConfig.mk 60000 3, t)) emptyMap).1
      = [CheckResult.mk true 2, CheckResult.mk true 1, CheckResult.mk true 0,
         CheckResult.mk false 0] := by
  have h := quota_ceiling_C1 "write-user1" (RateLimitConfig.mk 60000 3) emptyMap
    0 [1, 2] 3 (by decide) (by decide) (Or.inl rfl)
    (by intro t ht; fin_cases ht <;> decide) (by decide)
  exact h.trans (by decide)

/-- Simulation relation between a map and its swept version: each key is
either unchanged or was removed because it had already expired at the time
`t` of the sweep. -/
def SweepRel (t : Int) (m m' : RateLimitMap) : Prop :=
  ∀ k, m' k = m k ∨ (m' k = none ∧ ∃ w, m k = some w ∧ w.resetTime < t)

theorem sweepRel_init (t : Int) (m : RateLimitMap) :
    SweepRel t m (cleanupSweep t m) := by
  intro k
  rcases hm : m k with _ | w
  · left; simp [cleanupSweep, hm]
  · by_cases ht : w.resetTime < t
    · right
      exact ⟨by simp [cleanupSweep, hm, ht], w, rfl, ht⟩
    · left
      simp [cleanupSweep, hm, ht]

theorem sweepRel_mapSet (t : Int) (m m' : RateLimitMap) (id : String)
    (w : RateWindow) (h : SweepRel t m m') :
    SweepRel t (mapSet m id w) (mapSet m' id w) := by
  intro k
  by_cases hk : k = id
  · subst hk; left; rw [mapSet_self, mapSet_self]
  · rw [mapSet_other _ _ _ _ hk, mapSet_other _ _ _ _ hk]
    exact h k

/-- One step of the simulation: a call at a time at or after the sweep time
returns the same result on the swept and the unswept map, and the relation
is preserved. -/
theorem sweepRel_step (t now : Int) (id : String) (cfg : RateLimitConfig)
    (m m' : RateLimitMap) (h : SweepRel t m m') (hnow : t ≤ now) :
    (checkRateLimit id cfg now m').1 = (checkRateLimit id cfg now m).1
    ∧ SweepRel t (checkRateLimit id cfg now m).2 (checkRateLimit id cfg now m').2 := by
  rcases h id with heq | ⟨hnone, w, hsome, hexp⟩
  · rcases hm : m id with _ | w
    · rw [checkRateLimit_none id cfg now m hm,
        checkRateLimit_none id cfg now m' (heq.trans hm)]
      exact ⟨rfl, sweepRel_mapSet t m m' id _ h⟩
    · by_cases hexp2 : w.resetTime < now
      · rw [checkRateLimit_expired id cfg now m w hm hexp2,
          checkRateLimit_expired id cfg now m' w (heq.trans hm) hexp2]
        exact ⟨rfl, sweepRel_mapSet t m m' id _ h⟩
      · by_cases hfull : cfg.uniqueTokenPerInterval ≤ w.count
        · rw [checkRateLimit_reject id cfg now m w hm (not_lt.mp hexp2) hfull,
            checkRateLimit_reject id cfg now m' w (heq.trans hm) (not_lt.mp hexp2) hfull]
          exact ⟨rfl, h⟩
        · rw [checkRateLimit_increment id cfg now m w hm (not_lt.mp hexp2)
              (not_le.mp hfull),
            checkRateLimit_increment id cfg now m' w (heq.trans hm) (not_lt.mp hexp2)
              (not_le.mp hfull)]
          exact ⟨rfl, sweepRel_mapSet t m m' id _ h⟩
  · have hexp2 : w.resetTime < now := lt_of_lt_of_le hexp hnow
    rw [checkRateLimit_none id cfg now m' hnone,
      checkRateLimit_expired id cfg now m w hsome hexp2]
    exact ⟨rfl, sweepRel_mapSet t m m' id _ h⟩

/-- The simulation lifted to call sequences: the visible results agree. -/
theorem sweepRel_run (t : Int) (calls : List Call) :
    ∀ m m' : RateLimitMap, SweepRel t m m' →
      (∀ c ∈ calls, t ≤ c.2.2) →
      (runChecks calls m').1 = (runChecks calls m).1 := by
  induction calls with
  | nil => intro m m' _ _; rfl
  | cons c rest ih =>
      intro m m' h hts
      obtain ⟨id, cfg, tc⟩ := c
      have htc : t ≤ tc := hts (id, cfg, tc) (List.mem_cons_self ..)
      obtain ⟨hres, hrel⟩ := sweepRel_step t tc id cfg m m' h htc
      show (checkRateLimit id cfg tc m').1
            :: (runChecks rest (checkRateLimit id cfg tc m').2).1
        = (checkRateLimit id cfg tc m).1
            :: (runChecks rest (checkRateLimit id cfg tc m).2).1
      rw [hres, ih _ _ hrel (fun c hc => hts c (List.mem_cons_of_mem _ hc))]

/-- Claim C5: a cleanup sweep at time `t` removes exactly the entries whose
`resetTime` has passed (`resetTime < t`), and it is observationally
transparent: any subsequent sequence of `checkRateLimit` calls at times
≥ `t` returns exactly the same results whether or not the sweep ran. -/
theorem sweep_transparent_C5 (t : Int) (m : RateLimitMap) (calls : List Call)
    (hts : ∀ c ∈ calls, t ≤ c.2.2) :
    (∀ k, cleanupSweep t m k = none ↔
        (m k = none ∨ ∃ w, m k = some w ∧ w.resetTime < t))
    ∧ (∀ k w, cleanupSweep t m k = some w ↔ (m k = some w ∧ ¬ w.resetTime < t))
    ∧ (runChecks calls (cleanupSweep t m)).1 = (runChecks calls m).1 := by
  refine ⟨?_, ?_, sweepRel_run t calls m (cleanupSweep t m) (sweepRel_init t m) hts⟩
  · intro k
    constructor
    · intro hk
      unfold cleanupSweep at hk
      rcases hm : m k with _ | w0 <;> rw [hm] at hk
      · exact Or.inl rfl
      · by_cases ht : t > w0.resetTime
        · exact Or.inr ⟨w0, rfl, ht⟩
        · have hk' : (if t > w0.resetTime then none else some w0)
              = (none : Option RateWindow) := hk
          rw [if_neg ht] at hk'
          simp at hk' 
    · intro hk
      rcases hk with hnone | ⟨w, hsome, hexp⟩
      · unfold cleanupSweep
        rw [hnone]
      · unfold cleanupSweep
        rw [hsome]
        show (if t > w.resetTime then none else some w) = none
        rw [if_pos hexp]
  · intro k w
    constructor
    · intro hk
      unfold cleanupSweep at hk
      rcases hm : m k with _ | w0 <;> rw [hm] at hk
      · simp at hk
      · have hk' : (if t > w0.resetTime then none else some w0)
            = some w := hk
        by_cases ht : t > w0.resetTime
        · rw [if_pos ht] at hk'
          simp at hk'
        · rw [if_neg ht] at hk'
          have hw : w0 = w := by simpa using hk'
          subst hw
          exact ⟨rfl, ht⟩
    · rintro ⟨hk, hlive⟩
      unfold cleanupSweep
      rw [hk]
      show (if t > w.resetTime then none else some w) = some w
      rw [if_neg hlive]

/-- Claim C5 witness: at sweep time 100, the expired `"a"` (resetTime 50) is
removed, the live `"b"` (resetTime 200) survives, and a later pair of calls
sees identical results with or without the sweep. -/
theorem sweep_transparent_C5_witness :
    cleanupSweep 100 (mapSet (mapSet emptyMap "a" ⟨1, 50⟩) "b" ⟨2, 200⟩) "a" = none
    ∧ (runChecks [("a", RateLimitConfig.mk 60000 3, (100 : Int)),
          ("b", RateLimitConfig.mk 60000 3, 150)]
        (cleanupSweep 100 (mapSet (mapSet emptyMap "a" ⟨1, 50⟩) "b" ⟨2, 200⟩))).1
      = (runChecks [("a", RateLimitConfig.mk 60000 3, (100 : Int)),
          ("b", RateLimitConfig.mk 60000 3, 150)]
        (mapSet (mapSet emptyMap "a" ⟨1, 50⟩) "b" ⟨2, 200⟩)).1 := by
  have h := sweep_transparent_C5 100
    (mapSet (mapSet emptyMap "a" ⟨1, 50⟩) "b" ⟨2, 200⟩)
    [("a", RateLimitConfig.mk 60000 3, 100), ("b", RateLimitConfig.mk 60000 3, 150)]
    (by intro c hc; fin_cases hc <;> decide)
  exact ⟨(h.1 "a").mpr (Or.inr ⟨⟨1, 50⟩, by decide, by decide⟩), h.2.2⟩
